import Mathlib

set_option maxRecDepth 4000

/- Shallow embedding of the discord-ext-slash_parser repository
   (src/discord/ext/slash_parser: utils.py, converters.py, errors.py).

   Modelling conventions:
   - Python ints are modelled as Int/Nat (no machine-width arithmetic occurs).
   - A converter is a deterministic function of the interaction and the string
     value.  One call either returns a value or raises the error kind that
     utils._run_converters expects and catches for that converter family
     (commands.BadArgument for ext.commands converters,
     app_commands.AppCommandError for transformers, ValueError for plain
     callables).  Unexpected exception kinds would propagate out of the loop;
     they are outside the modelled outcomes, and every claim speaks only of
     expected error kinds.  The ContextWrapper built at the top of
     _run_converters is attribute-forwarding glue with no effect on the
     control flow modelled here; converters receive the interaction directly.
   - Python dicts keyed by sub-value strings are modelled as insertion-ordered
     association lists whose insert overwrites an existing key in place,
     matching CPython semantics. -/

/-- Carrier for converted values, with Python truthiness. -/
inductive Value where
  | vstr (s : String)
  | vint (n : Int)
  | vbool (b : Bool)
  | vobj (tag : String)
deriving DecidableEq

/-- Python truthiness of a converted value: the empty string, zero and False
    are falsy; host-framework entity objects are always truthy. -/
def Value.truthy : Value → Bool
  | .vstr s => !(s == "")
  | .vint n => !(n == 0)
  | .vbool b => b
  | .vobj _ => true

/-- The exception kinds a converter call can raise and _run_converters
    catches.  notAString/notAnInteger are the errors.py classes (subclasses of
    app_commands.AppCommandError); badBoolArgument is the host helper's
    BadBoolArgument; badArgument and appCommandError stand for arbitrary
    caught errors of custom converters. -/
inductive Exc where
  | notAString (value : String)
  | notAnInteger (value : String)
  | badBoolArgument (lowered : String)
  | badArgument (message : String)
  | appCommandError (message : String)
deriving DecidableEq

/-- Outcome of one converter call: a returned value, or a raised error of the
    expected kind (which the resolver catches). -/
inductive ConvOutcome where
  | ok (v : Value)
  | caught (e : Exc)
deriving DecidableEq

/-- Opaque interaction object; the claims quantify over it but no modelled
    converter control flow depends on its contents. -/
structure Interaction where
  clientId : Nat

def i0 : Interaction := { clientId := 0 }

/-- A concrete, invocable converter as produced by normalization: its identity
    (class name) and its conversion behavior. -/
structure Converter where
  name : String
  run : Interaction → String → ConvOutcome

/-- Model of Python int(str) on plain decimal tokens: optional sign followed
    by one or more ASCII digits.  (Python additionally strips surrounding
    whitespace and allows underscores; the claims only involve space-delimited
    tokens, where neither occurs.) -/
def pyParseDigits (cs : List Char) : Option Nat :=
  if cs.isEmpty then none
  else if cs.all Char.isDigit then
    some (cs.foldl (fun n c => n * 10 + (c.toNat - 48)) 0)
  else none

def pyParseInt (s : String) : Option Int :=
  match s.data with
  | '-' :: rest => (pyParseDigits rest).map (fun n => -(n : Int))
  | '+' :: rest => (pyParseDigits rest).map (fun n => (n : Int))
  | cs => (pyParseDigits cs).map (fun n => (n : Int))

/-- discord.ext.commands.converter._convert_to_bool, used by BooleanConverter. -/
def pyConvertToBool (argument : String) : ConvOutcome :=
  let lowered := argument.toLower
  if lowered == "yes" || lowered == "y" || lowered == "true" || lowered == "t"
      || lowered == "1" || lowered == "enable" || lowered == "on" then
    ConvOutcome.ok (Value.vbool true)
  else if lowered == "no" || lowered == "n" || lowered == "false" || lowered == "f"
      || lowered == "0" || lowered == "disable" || lowered == "off" then
    ConvOutcome.ok (Value.vbool false)
  else
    ConvOutcome.caught (Exc.badBoolArgument lowered)

/-- converters.StringConverter.transform: str(argument) on a str never raises,
    so the except-ValueError branch raising NotAString is dead code. -/
def StringConverter : Converter :=
  { name := "StringConverter",
    run := fun _ argument => ConvOutcome.ok (Value.vstr argument) }

/-- converters.IntegerConverter.transform: int(argument), raising NotAnInteger
    (an app_commands.AppCommandError, hence caught) when int() fails. -/
def IntegerConverter : Converter :=
  { name := "IntegerConverter",
    run := fun _ argument =>
      match pyParseInt argument with
      | some n => ConvOutcome.ok (Value.vint n)
      | none => ConvOutcome.caught (Exc.notAnInteger argument) }

/-- converters.BooleanConverter.transform delegates to _convert_to_bool. -/
def BooleanConverter : Converter :=
  { name := "BooleanConverter",
    run := fun _ argument => pyConvertToBool argument }

/-- commands.MemberConverter: a host-framework converter whose lookup behavior
    is external to this repository; no claim depends on it, only on the
    converter's identity inside normalized lists.  Modelled as an opaque
    successful entity lookup. -/
def MemberConverter : Converter :=
  { name := "MemberConverter",
    run := fun _ s => ConvOutcome.ok (Value.vobj ("Member " ++ s)) }

/-- commands.RoleConverter: external host-framework converter, identity only. -/
def RoleConverter : Converter :=
  { name := "RoleConverter",
    run := fun _ s => ConvOutcome.ok (Value.vobj ("Role " ++ s)) }

/-- commands.UserConverter: external host-framework converter, identity only. -/
def UserConverter : Converter :=
  { name := "UserConverter",
    run := fun _ s => ConvOutcome.ok (Value.vobj ("User " ++ s)) }

/-- commands.GuildChannelConverter: external host-framework converter. -/
def GuildChannelConverter : Converter :=
  { name := "GuildChannelConverter",
    run := fun _ s => ConvOutcome.ok (Value.vobj ("GuildChannel " ++ s)) }

/- ===== utils._run_converters ===== -/

/-- The (converted_value, used_converter, error) triple returned by
    utils._run_converters. -/
structure ResolveOutcome where
  value : Option Value
  converter : Option Converter
  error : Option Exc

def valueTruthy : Option Value → Bool
  | none => false
  | some v => v.truthy

/-- The loop of utils._run_converters over the converter list, carrying the
    mutable locals (converted_value, used_converter, error).  The head check
    mirrors the break on a truthy converted_value at the top of each
    iteration; on success converted_value is overwritten (even by a falsy
    result), on a caught error only error is overwritten — neither assignment
    resets the other local. -/
def runConvertersGo (i : Interaction) (value : String) :
    List Converter → ResolveOutcome → ResolveOutcome
  | [], st => st
  | c :: rest, st =>
    if valueTruthy st.value then st
    else
      match c.run i value with
      | ConvOutcome.ok v =>
        runConvertersGo i value rest { value := some v, converter := some c, error := st.error }
      | ConvOutcome.caught e =>
        runConvertersGo i value rest { value := st.value, converter := some c, error := some e }

/-- utils._run_converters: tries each converter in order against one string
    value and returns the final (converted_value, used_converter, error). -/
def _run_converters (converters : List Converter) (i : Interaction) (value : String) :
    ResolveOutcome :=
  runConvertersGo i value converters { value := none, converter := none, error := none }

/-- True when one converter call fails under the resolver's policy: it raises
    its expected error kind, or returns a falsy value. -/
def convFailsB (c : Converter) (i : Interaction) (v : String) : Bool :=
  match c.run i v with
  | ConvOutcome.ok w => !w.truthy
  | ConvOutcome.caught _ => true

/-- True when the resolver ends with a truthy converted value for v. -/
def resolveSucceeds (cs : List Converter) (i : Interaction) (v : String) : Bool :=
  valueTruthy (_run_converters cs i v).value

/-- True when the resolver ends with a recorded (caught) error for v. -/
def resolveRaised (cs : List Converter) (i : Interaction) (v : String) : Bool :=
  ((_run_converters cs i v).error).isSome

/-- Final converted_value after running a converter list with no break:
    the result of the last converter that returned (rather than raised),
    starting from acc. -/
def lastValAcc (i : Interaction) (v : String) (acc : Option Value) :
    List Converter → Option Value
  | [] => acc
  | c :: rest =>
    match c.run i v with
    | ConvOutcome.ok w => lastValAcc i v (some w) rest
    | ConvOutcome.caught _ => lastValAcc i v acc rest

/-- Final error after running a converter list with no break: the most
    recently caught error, starting from acc. -/
def lastErrAcc (i : Interaction) (v : String) (acc : Option Exc) :
    List Converter → Option Exc
  | [] => acc
  | c :: rest =>
    match c.run i v with
    | ConvOutcome.ok _ => lastErrAcc i v acc rest
    | ConvOutcome.caught e => lastErrAcc i v (some e) rest

/-- Final used_converter after running a converter list with no break. -/
def lastConvAcc (acc : Option Converter) : List Converter → Option Converter
  | [] => acc
  | c :: rest => lastConvAcc (some c) rest

/- ===== Python str.split and dict ===== -/

/-- Scanner for Python str.split(sep) with a non-empty separator, over
    character lists.  The fuel argument starts at the length of the text and
    bounds the number of steps (each step consumes at least one character), so
    the fuel-exhausted branch is only reached with empty remaining text. -/
def pySplitGo (sep : List Char) : Nat → List Char → List Char → List (List Char)
  | 0, acc, rest => [acc.reverse ++ rest]
  | fuel + 1, acc, rest =>
    match rest with
    | [] => [acc.reverse]
    | c :: rest1 =>
      if sep.isPrefixOf (c :: rest1) then
        acc.reverse :: pySplitGo sep fuel [] ((c :: rest1).drop sep.length)
      else
        pySplitGo sep fuel (c :: acc) rest1

/-- Model of Python str.split(sep): "".split(" ") is [""], adjacent separators
    produce empty tokens.  (Lean's own String.splitOn has the same semantics
    for non-empty separators but does not reduce definitionally, which the
    concrete witnesses need.)  Python rejects an empty separator with
    ValueError; that case is modelled as no split and is unreachable from the
    claims, which use the default delimiter " ". -/
def pySplit (sep : String) (s : String) : List String :=
  if sep.data.isEmpty then [s]
  else (pySplitGo sep.data s.data.length [] s.data).map (fun cs => String.mk cs)

/-- Python dict with string keys: association list in insertion order. -/
abbrev PyDict (α : Type) : Type := List (String × α)

/-- dict[k] = v: overwrites an existing key in place, else appends. -/
def dictInsert {α : Type} (d : PyDict α) (k : String) (v : α) : PyDict α :=
  match d with
  | [] => [(k, v)]
  | (k0, v0) :: rest => if k0 = k then (k, v) :: rest else (k0, v0) :: dictInsert rest k v

/-- k in dict. -/
def dictContains {α : Type} : PyDict α → String → Bool
  | [], _ => false
  | (k0, _) :: rest, k => (k0 == k) || dictContains rest k

/-- list(dict.keys()). -/
def dictKeys {α : Type} (d : PyDict α) : List String :=
  d.map (fun kv => kv.1)

/- ===== converters.StringParser ===== -/

/-- The StringParser configuration set up by StringParser.__init__ (converters
    already normalized by utils._get_converters). -/
structure StringParser where
  split_by : String
  converters : List Converter
  only_values : Bool
  fail_on_error : Bool

/-- converters.ParseResult. -/
structure ParseResult where
  argument : String
  success : PyDict (Value × Option Converter)
  failed : PyDict (Option Converter)
  errors : PyDict Exc

/-- ParseResult.converted: the first components of success's values, in
    insertion order. -/
def ParseResult.converted (r : ParseResult) : List Value :=
  r.success.map (fun kv => kv.2.1)

/-- Outcome of StringParser.transform: a ParseResult, a SequenceProxy of the
    converted values (when only_values), or a raised ParsingFailed carrying
    the per-value error dict. -/
inductive SPOutcome where
  | result (res : ParseResult)
  | values (vs : List Value)
  | parsingFailed (argument : String) (errors : PyDict Exc)

/-- The three dicts StringParser.transform accumulates. -/
structure SPState where
  success : PyDict (Value × Option Converter)
  failed : PyDict (Option Converter)
  errors : PyDict Exc

/-- One iteration of the loop in StringParser.transform: run the resolver on
    one sub-value; a truthy converted value goes to success (with the used
    converter), anything else sends the sub-value to failed; independently, a
    recorded error is stored in the error dict. -/
def spStep (cs : List Converter) (i : Interaction) (st : SPState) (value : String) : SPState :=
  let out := _run_converters cs i value
  let st1 :=
    match out.value with
    | some v =>
      if v.truthy then
        { st with success := dictInsert st.success value (v, out.converter) }
      else
        { st with failed := dictInsert st.failed value out.converter }
    | none => { st with failed := dictInsert st.failed value out.converter }
  match out.error with
  | some e => { st1 with errors := dictInsert st1.errors value e }
  | none => st1

/-- The loop of StringParser.transform over the split sub-values. -/
def spRun (p : StringParser) (i : Interaction) (argument : String) : SPState :=
  (pySplit p.split_by argument).foldl (spStep p.converters i)
    { success := [], failed := [], errors := [] }

/-- converters.StringParser.transform: splits, processes every sub-value, then
    raises ParsingFailed when success is empty or (fail_on_error and failed is
    non-empty); otherwise returns the ParseResult (or just its converted
    values when only_values). -/
def StringParser.transform (p : StringParser) (i : Interaction) (argument : String) : SPOutcome :=
  let st := spRun p i argument
  if st.success.isEmpty || (p.fail_on_error && !st.failed.isEmpty) then
    SPOutcome.parsingFailed argument st.errors
  else
    let res : ParseResult :=
      { argument := argument, success := st.success, failed := st.failed, errors := st.errors }
    if p.only_values then SPOutcome.values res.converted else SPOutcome.result res

/- ===== utils._get_converters (normalization) ===== -/

/-- The host-platform entity classes special-cased by the mentionable check. -/
inductive EntityTy where
  | member
  | user
  | role
deriving DecidableEq

/-- The Python builtin classes used as converter descriptors by the claims. -/
inductive PyBuiltin where
  | pstr
  | pint
  | pbool
deriving DecidableEq

/-- A non-union converter descriptor: an entity class, a Python builtin, or a
    custom Transformer/Converter subclass. -/
inductive AtomDescriptor where
  | entity (e : EntityTy)
  | builtin (b : PyBuiltin)
  | customConv (c : Converter)

/-- A converter descriptor as passed to utils._get_converters.  CPython's
    typing module flattens and dedupes nested unions, so a union's members are
    always non-union descriptors and a union is never empty. -/
inductive Descriptor where
  | atom (a : AtomDescriptor)
  | union (u0 : AtomDescriptor) (us : List AtomDescriptor)

/-- The option types of utils.converter_from_appcommandoptiontype reachable
    from the modelled descriptors.  attachment (which raises TypeError before
    this table) and number (floating point; mentioned by no claim) are not
    modelled. -/
inductive AppCommandOptionType where
  | string
  | integer
  | boolean
  | user
  | role
  | channel
  | mentionable

/-- utils.converter_from_appcommandoptiontype: maps a library transformer's
    option type to the tuple of concrete converters it expands to. -/
def converter_from_appcommandoptiontype : AppCommandOptionType → List Converter
  | .string => [StringConverter]
  | .integer => [IntegerConverter]
  | .boolean => [BooleanConverter]
  | .user => [MemberConverter]
  | .role => [RoleConverter]
  | .channel => [GuildChannelConverter]
  | .mentionable => [MemberConverter, RoleConverter, UserConverter]

/-- The option type recorded for an item in the library's built-in transformer
    table (discord.app_commands.transformers.BUILT_IN_TRANSFORMERS): str, int,
    bool map to their primitive option types; Member and User map to the user
    option type, Role to role.  Custom subclasses are not in the table. -/
def libraryTransformerType : AtomDescriptor → Option AppCommandOptionType
  | .builtin .pstr => some .string
  | .builtin .pint => some .integer
  | .builtin .pbool => some .boolean
  | .entity .member => some .user
  | .entity .user => some .user
  | .entity .role => some .role
  | .customConv _ => none

/-- "uitem in (discord.Member, discord.Role)". -/
def inMemberRoleTuple : AtomDescriptor → Bool
  | .entity .member => true
  | .entity .role => true
  | _ => false

/-- "uitem in (discord.User, discord.Role)". -/
def inUserRoleTuple : AtomDescriptor → Bool
  | .entity .user => true
  | .entity .role => true
  | _ => false

/-- The per-member condition of the mentionable special case in
    utils._get_converters. -/
def isMentionableItem (a : AtomDescriptor) : Bool :=
  inMemberRoleTuple a || inUserRoleTuple a

/-- One non-union item of utils._get_converters.  In the modelled descriptor
    universe every class-reference item is either a key of the library's
    built-in transformer table (handled through
    converter_from_appcommandoptiontype on the transformer's option type) or a
    custom Transformer/Converter subclass, which is appended unchanged.  The
    TypeError branch for unsupported items and the extra ext.commands entries
    of converters.BUILT_IN_TRANSFORMERS (Message, Colour, ...) concern
    descriptors no claim mentions. -/
def convertersForAtom (a : AtomDescriptor) : List Converter :=
  match a with
  | AtomDescriptor.customConv c => [c]
  | a1 =>
    match libraryTransformerType a1 with
    | some t => converter_from_appcommandoptiontype t
    | none => []

/-- The recursive call _get_converters(union_items) of the non-mentionable
    union branch: union members are non-union descriptors, for which
    _get_converters reduces to the per-item expansion. -/
def getConvertersAtoms : List AtomDescriptor → List Converter
  | [] => []
  | a :: rest => convertersForAtom a ++ getConvertersAtoms rest

/-- utils._get_converters: flattens a descriptor list to concrete converters.
    A union all of whose members pass "uitem in (Member, Role) or uitem in
    (User, Role)" is collapsed to (MemberConverter, RoleConverter,
    UserConverter); any other union is expanded member-wise. -/
def _get_converters : List Descriptor → List Converter
  | [] => []
  | Descriptor.atom a :: rest => convertersForAtom a ++ _get_converters rest
  | Descriptor.union u0 us :: rest =>
    (if (u0 :: us).all isMentionableItem then
      [MemberConverter, RoleConverter, UserConverter]
    else
      getConvertersAtoms (u0 :: us)) ++ _get_converters rest

/- ===== converters.VariadicArgs ===== -/

/-- The VariadicArgs configuration set up by VariadicArgs.__init__ (converters
    already normalized; only_values is fixed to False and fail_on_error keeps
    its default False). -/
structure VariadicArgs where
  min : Option Nat
  max : Option Nat
  converters : List Converter
  split_by : String

/-- VariadicArgs.__init__ from descriptors: normalizes the converter list with
    utils._get_converters. -/
def VariadicArgs.make (min max : Option Nat) (converters : List Descriptor)
    (split_by : String) : VariadicArgs :=
  { min := min, max := max, converters := _get_converters converters, split_by := split_by }

/-- "self.min and len(arguments) < self.min" (None and 0 are falsy). -/
def minViolated (va : VariadicArgs) (arguments : List String) : Bool :=
  match va.min with
  | none => false
  | some m => !(m == 0) && decide (arguments.length < m)

/-- "self.max and len(arguments) > self.max" (None and 0 are falsy). -/
def maxViolated (va : VariadicArgs) (arguments : List String) : Bool :=
  match va.max with
  | none => false
  | some m => !(m == 0) && decide (m < arguments.length)

/-- The "Too few"/"Too many" selector computed by
    errors.InvalidVariadicArguments.__init__ ("Too few" is also the default
    when neither bound test fires). -/
def invalidVariadicWhat (va : VariadicArgs) (received : List String) : String :=
  if minViolated va received then "Too few"
  else if maxViolated va received then "Too many"
  else "Too few"

/-- Outcome of VariadicArgs.transform: the converted sequence, a raised
    InvalidVariadicArguments (with its message selector), or a raised
    VariadicArgsFailed carrying the split list and the per-value error dict. -/
inductive VAOutcome where
  | values (vs : List Value)
  | invalidVariadicArguments (argument : String) (received_arguments : List String) (what : String)
  | variadicArgsFailed (argument : String) (received_arguments : List String) (errors : PyDict Exc)

/-- converters.VariadicArgs.transform: delegates to StringParser.transform
    (ParsingFailed is re-raised as VariadicArgsFailed with the same errors);
    then rejects when the split list is empty or a configured bound is
    violated; then rejects, as VariadicArgsFailed, when success is empty, any
    sub-value failed, or the success dict is smaller than the split list;
    otherwise returns the converted values. -/
def VariadicArgs.transform (va : VariadicArgs) (i : Interaction) (argument : String) : VAOutcome :=
  let arguments := pySplit va.split_by argument
  let parser : StringParser :=
    { split_by := va.split_by, converters := va.converters,
      only_values := false, fail_on_error := false }
  match StringParser.transform parser i argument with
  | SPOutcome.parsingFailed _ errs =>
    VAOutcome.variadicArgsFailed argument arguments errs
  | SPOutcome.values vs =>
    -- unreachable: only_values is False for the parser built by VariadicArgs
    VAOutcome.values vs
  | SPOutcome.result res =>
    if arguments.isEmpty || minViolated va arguments || maxViolated va arguments then
      VAOutcome.invalidVariadicArguments argument arguments (invalidVariadicWhat va arguments)
    else if res.success.isEmpty || !res.failed.isEmpty
        || !(res.success.length == arguments.length) then
      VAOutcome.variadicArgsFailed argument arguments res.errors
    else
      VAOutcome.values res.converted

/- ===== Concrete instances used by witnesses and counterexamples ===== -/

/-- A custom converter that always raises its expected error kind. -/
def cBoom : Converter :=
  { name := "boom", run := fun _ _ => ConvOutcome.caught (Exc.badArgument "boom") }

/-- A second always-raising custom converter with a distinct error. -/
def cBoom2 : Converter :=
  { name := "boom2", run := fun _ _ => ConvOutcome.caught (Exc.badArgument "second") }

/-- A custom converter that echoes the value (truthy on non-empty input). -/
def cAccept : Converter :=
  { name := "accept", run := fun _ s => ConvOutcome.ok (Value.vstr s) }

/-- VariadicArgs(min=2, max=3) with the default str converter and delimiter. -/
def va5 : VariadicArgs :=
  VariadicArgs.make (some 2) (some 3) [Descriptor.atom (AtomDescriptor.builtin PyBuiltin.pstr)] " "

/-- VariadicArgs(converters=[int]) with no bounds. -/
def va6 : VariadicArgs :=
  VariadicArgs.make none none [Descriptor.atom (AtomDescriptor.builtin PyBuiltin.pint)] " "

/-- VariadicArgs() with the default str converter and no bounds. -/
def va9 : VariadicArgs :=
  VariadicArgs.make none none [Descriptor.atom (AtomDescriptor.builtin PyBuiltin.pstr)] " "

/-- StringParser(converters=[IntegerConverter]). -/
def c4parser : StringParser :=
  { split_by := " ", converters := [IntegerConverter], only_values := false, fail_on_error := false }

/-- The ParseResult StringParser.transform produces for c4parser on "1 x". -/
def c4res : ParseResult :=
  { argument := "1 x",
    success := [("1", (Value.vint 1, some IntegerConverter))],
    failed := [("x", some IntegerConverter)],
    errors := [("x", Exc.notAnInteger "x")] }

/-- StringParser(converters=[IntegerConverter]) for the C7 witness. -/
def c7parser : StringParser :=
  { split_by := " ", converters := [IntegerConverter], only_values := false, fail_on_error := false }

/- ===== Lemmas about utils._run_converters ===== -/

lemma runConvertersGo_truthy (i : Interaction) (v : String) (cs : List Converter)
    (st : ResolveOutcome) (h : valueTruthy st.value = true) :
    runConvertersGo i v cs st = st := by
  cases cs with
  | nil => rfl
  | cons c rest => simp [runConvertersGo, h]

lemma runConvertersGo_all_fail (i : Interaction) (v : String) :
    ∀ (cs : List Converter) (st : ResolveOutcome),
      (∀ c ∈ cs, convFailsB c i v = true) → valueTruthy st.value = false →
      runConvertersGo i v cs st =
        { value := lastValAcc i v st.value cs,
          converter := lastConvAcc st.converter cs,
          error := lastErrAcc i v st.error cs } := by
  intro cs
  induction cs with
  | nil => intro st _ _; rfl
  | cons c rest ih =>
    intro st hall hst
    have hc : convFailsB c i v = true := hall c (List.mem_cons_self c rest)
    have hrest : ∀ c' ∈ rest, convFailsB c' i v = true :=
      fun c' h' => hall c' (List.mem_cons_of_mem _ h')
    cases hr : c.run i v with
    | ok w =>
      have hw : w.truthy = false := by
        unfold convFailsB at hc
        rw [hr] at hc
        simpa using hc
      calc runConvertersGo i v (c :: rest) st
          = runConvertersGo i v rest
              { value := some w, converter := some c, error := st.error } := by
            rw [runConvertersGo, if_neg (by simp [hst]), hr]
        _ = { value := lastValAcc i v (some w) rest,
              converter := lastConvAcc (some c) rest,
              error := lastErrAcc i v st.error rest } :=
            ih _ hrest (by simpa [valueTruthy] using hw)
        _ = { value := lastValAcc i v st.value (c :: rest),
              converter := lastConvAcc st.converter (c :: rest),
              error := lastErrAcc i v st.error (c :: rest) } := by
            simp [lastValAcc, lastErrAcc, lastConvAcc, hr]
    | caught e =>
      calc runConvertersGo i v (c :: rest) st
          = runConvertersGo i v rest
              { value := st.value, converter := some c, error := some e } := by
            rw [runConvertersGo, if_neg (by simp [hst]), hr]
        _ = { value := lastValAcc i v st.value rest,
              converter := lastConvAcc (some c) rest,
              error := lastErrAcc i v (some e) rest } :=
            ih _ hrest (by simpa [valueTruthy] using hst)
        _ = { value := lastValAcc i v st.value (c :: rest),
              converter := lastConvAcc st.converter (c :: rest),
              error := lastErrAcc i v st.error (c :: rest) } := by
            simp [lastValAcc, lastErrAcc, lastConvAcc, hr]

lemma runConvertersGo_first_success (i : Interaction) (v : String) :
    ∀ (pre : List Converter) (c : Converter) (post : List Converter)
      (st : ResolveOutcome) (w : Value),
      (∀ c' ∈ pre, convFailsB c' i v = true) → valueTruthy st.value = false →
      c.run i v = ConvOutcome.ok w → w.truthy = true →
      runConvertersGo i v (pre ++ c :: post) st =
        { value := some w, converter := some c, error := lastErrAcc i v st.error pre } := by
  intro pre
  induction pre with
  | nil =>
    intro c post st w _ hst hc hw
    calc runConvertersGo i v ([] ++ c :: post) st
        = runConvertersGo i v post
            { value := some w, converter := some c, error := st.error } := by
          rw [List.nil_append, runConvertersGo, if_neg (by simp [hst]), hc]
      _ = { value := some w, converter := some c, error := lastErrAcc i v st.error [] } :=
          runConvertersGo_truthy i v post _ (by simpa [valueTruthy] using hw)
  | cons p pre ih =>
    intro c post st w hpre hst hc hw
    have hp : convFailsB p i v = true := hpre p (List.mem_cons_self p pre)
    have hpre1 : ∀ c' ∈ pre, convFailsB c' i v = true :=
      fun c' h' => hpre c' (List.mem_cons_of_mem _ h')
    cases hr : p.run i v with
    | ok w1 =>
      have hw1 : w1.truthy = false := by
        unfold convFailsB at hp
        rw [hr] at hp
        simpa using hp
      calc runConvertersGo i v ((p :: pre) ++ c :: post) st
          = runConvertersGo i v (pre ++ c :: post)
              { value := some w1, converter := some p, error := st.error } := by
            rw [List.cons_append, runConvertersGo, if_neg (by simp [hst]), hr]
        _ = { value := some w, converter := some c,
              error := lastErrAcc i v st.error pre } :=
            ih c post _ w hpre1 (by simpa [valueTruthy] using hw1) hc hw
        _ = { value := some w, converter := some c,
              error := lastErrAcc i v st.error (p :: pre) } := by
            simp [lastErrAcc, hr]
    | caught e =>
      calc runConvertersGo i v ((p :: pre) ++ c :: post) st
          = runConvertersGo i v (pre ++ c :: post)
              { value := st.value, converter := some p, error := some e } := by
            rw [List.cons_append, runConvertersGo, if_neg (by simp [hst]), hr]
        _ = { value := some w, converter := some c,
              error := lastErrAcc i v (some e) pre } :=
            ih c post _ w hpre1 (by simpa [valueTruthy] using hst) hc hw
        _ = { value := some w, converter := some c,
              error := lastErrAcc i v st.error (p :: pre) } := by
            simp [lastErrAcc, hr]

lemma runConvertersGo_error_source (i : Interaction) (v : String) :
    ∀ (cs : List Converter) (st : ResolveOutcome) (e : Exc),
      (runConvertersGo i v cs st).error = some e →
      st.error = some e ∨ ∃ c ∈ cs, c.run i v = ConvOutcome.caught e := by
  intro cs
  induction cs with
  | nil => intro st e h; exact Or.inl h
  | cons c rest ih =>
    intro st e h
    rw [runConvertersGo] at h
    by_cases ht : valueTruthy st.value = true
    · rw [if_pos ht] at h
      exact Or.inl h
    · rw [if_neg ht] at h
      cases hr : c.run i v with
      | ok w =>
        rw [hr] at h
        rcases ih _ e h with h1 | ⟨c1, hm, hc1⟩
        · exact Or.inl h1
        · exact Or.inr ⟨c1, List.mem_cons_of_mem _ hm, hc1⟩
      | caught e1 =>
        rw [hr] at h
        rcases ih _ e h with h1 | ⟨c1, hm, hc1⟩
        · simp only at h1
          cases h1
          exact Or.inr ⟨c, List.mem_cons_self c rest, hr⟩
        · exact Or.inr ⟨c1, List.mem_cons_of_mem _ hm, hc1⟩

lemma lastConvAcc_getLast :
    ∀ (cs : List Converter) (hne : cs ≠ []) (acc : Option Converter),
      lastConvAcc acc cs = some (cs.getLast hne) := by
  intro cs
  induction cs with
  | nil => intro hne; exact absurd rfl hne
  | cons c rest ih =>
    intro _ acc
    cases rest with
    | nil => rfl
    | cons d rest1 =>
      rw [lastConvAcc]
      exact ih (List.cons_ne_nil d rest1) (some c)

/-- Claim C1 (corrected): when a converter is the first to produce a truthy
    result, _run_converters stops there and returns that value and converter,
    but the error slot is NOT reset to None: it still holds the most recently
    caught error of the earlier, failing converters (None only when none of
    them raised). -/
theorem c1_first_success_keeps_last_error (cs pre post : List Converter) (c : Converter)
    (i : Interaction) (v : String) (w : Value)
    (hcs : cs = pre ++ c :: post)
    (hpre : ∀ c' ∈ pre, convFailsB c' i v = true)
    (hc : c.run i v = ConvOutcome.ok w)
    (hw : w.truthy = true) :
    _run_converters cs i v =
      { value := some w, converter := some c, error := lastErrAcc i v none pre } := by
  subst hcs
  exact runConvertersGo_first_success i v pre c post
    { value := none, converter := none, error := none } w hpre rfl hc hw

/-- Claim C1 counterexample: with converters [cBoom, cAccept] on "x", cAccept
    is the first converter with a truthy result, yet the returned error
    component is the error cBoom raised earlier, not None as the claim
    states. -/
theorem c1_counterexample :
    convFailsB cBoom i0 "x" = true
    ∧ cAccept.run i0 "x" = ConvOutcome.ok (Value.vstr "x")
    ∧ (Value.vstr "x").truthy = true
    ∧ (_run_converters [cBoom, cAccept] i0 "x").value = some (Value.vstr "x")
    ∧ (_run_converters [cBoom, cAccept] i0 "x").converter = some cAccept
    ∧ (_run_converters [cBoom, cAccept] i0 "x").error = some (Exc.badArgument "boom")
    ∧ some (Exc.badArgument "boom") ≠ (none : Option Exc) :=
  ⟨rfl, rfl, rfl, rfl, rfl, rfl, by decide⟩

/-- Witness for c1_first_success_keeps_last_error at converters
    [cBoom, cAccept] and value "x". -/
theorem c1_witness :
    (∀ c' ∈ [cBoom], convFailsB c' i0 "x" = true)
    ∧ _run_converters [cBoom, cAccept] i0 "x" =
        { value := some (Value.vstr "x"), converter := some cAccept,
          error := lastErrAcc i0 "x" none [cBoom] } :=
  ⟨by decide,
   c1_first_success_keeps_last_error [cBoom, cAccept] [cBoom] [] cAccept i0 "x"
     (Value.vstr "x") rfl (by decide) rfl rfl⟩

/-- Claim C2 (corrected): when every converter fails, _run_converters returns
    the last converter as used_converter and the most recently caught error,
    but the value component is the (falsy) result of the last converter that
    returned rather than raised — it is None only when every failure was a
    raise. -/
theorem c2_all_fail_returns_last (cs : List Converter) (i : Interaction) (v : String)
    (hne : cs ≠ [])
    (hall : ∀ c ∈ cs, convFailsB c i v = true) :
    _run_converters cs i v =
      { value := lastValAcc i v none cs,
        converter := some (cs.getLast hne),
        error := lastErrAcc i v none cs } := by
  rw [_run_converters,
    runConvertersGo_all_fail i v cs { value := none, converter := none, error := none } hall rfl,
    lastConvAcc_getLast cs hne none]

/-- Claim C2 counterexample: with the single converter IntegerConverter on
    "0", the only converter fails (int("0") is falsy), yet the returned value
    component is 0, not None as the claim states. -/
theorem c2_counterexample :
    convFailsB IntegerConverter i0 "0" = true
    ∧ (_run_converters [IntegerConverter] i0 "0").value = some (Value.vint 0)
    ∧ some (Value.vint 0) ≠ (none : Option Value) := by
  refine ⟨by decide, by decide, by decide⟩

/-- Witness for c2_all_fail_returns_last at converters
    [IntegerConverter, cBoom] and value "0". -/
theorem c2_witness :
    (∀ c ∈ [IntegerConverter, cBoom], convFailsB c i0 "0" = true)
    ∧ _run_converters [IntegerConverter, cBoom] i0 "0" =
        { value := some (Value.vint 0), converter := some cBoom,
          error := some (Exc.badArgument "boom") } :=
  ⟨by decide,
   c2_all_fail_returns_last [IntegerConverter, cBoom] i0 "0"
     (List.cons_ne_nil _ _) (by decide)⟩

/-- Claim C3 (corrected): when every converter fails, the error that the
    resolver records and returns is the most recently caught (last) error,
    not the first — each newly caught error overwrites the previous one. -/
theorem c3_last_error_surfaces (cs : List Converter) (i : Interaction) (v : String)
    (hall : ∀ c ∈ cs, convFailsB c i v = true) :
    (_run_converters cs i v).error = lastErrAcc i v none cs := by
  rw [_run_converters,
    runConvertersGo_all_fail i v cs { value := none, converter := none, error := none } hall rfl]

/-- Claim C3 counterexample: with converters [cBoom, cBoom2] on "x" both
    converters raise; the surfaced error is cBoom2's (the later one), not the
    first caught error as the claim states. -/
theorem c3_counterexample :
    cBoom.run i0 "x" = ConvOutcome.caught (Exc.badArgument "boom")
    ∧ cBoom2.run i0 "x" = ConvOutcome.caught (Exc.badArgument "second")
    ∧ (_run_converters [cBoom, cBoom2] i0 "x").error = some (Exc.badArgument "second")
    ∧ Exc.badArgument "second" ≠ Exc.badArgument "boom" := by
  refine ⟨rfl, rfl, rfl, by decide⟩

/-- Witness for c3_last_error_surfaces at converters [cBoom, cBoom2] and
    value "x". -/
theorem c3_witness :
    (∀ c ∈ [cBoom, cBoom2], convFailsB c i0 "x" = true)
    ∧ (_run_converters [cBoom, cBoom2] i0 "x").error = some (Exc.badArgument "second") :=
  ⟨by decide, c3_last_error_surfaces [cBoom, cBoom2] i0 "x" (by decide)⟩

/-- The StringParser that VariadicArgs.transform delegates to: same split_by
    and converters, only_values fixed to False, fail_on_error left at its
    default False. -/
def vaParser (va : VariadicArgs) : StringParser :=
  { split_by := va.split_by, converters := va.converters,
    only_values := false, fail_on_error := false }

/- ===== Lemmas about the dict model ===== -/

lemma dictContains_insert {α : Type} (d : PyDict α) (k k' : String) (v : α) :
    dictContains (dictInsert d k v) k' = true ↔ k' = k ∨ dictContains d k' = true := by
  induction d with
  | nil =>
    simp only [dictInsert, dictContains, Bool.or_eq_true, beq_iff_eq]
    constructor
    · rintro (rfl | h1)
      · exact Or.inl rfl
      · cases h1
    · rintro (rfl | h1)
      · exact Or.inl rfl
      · cases h1
  | cons hd tl ih =>
    obtain ⟨k0, v0⟩ := hd
    by_cases h : k0 = k
    · subst h
      simp only [dictInsert, if_pos rfl, dictContains, Bool.or_eq_true, beq_iff_eq]
      constructor
      · rintro (rfl | h1)
        · exact Or.inl rfl
        · exact Or.inr (Or.inr h1)
      · rintro (rfl | rfl | h1)
        · exact Or.inl rfl
        · exact Or.inl rfl
        · exact Or.inr h1
    · simp only [dictInsert, if_neg h, dictContains, Bool.or_eq_true, beq_iff_eq, ih]
      tauto

lemma mem_dictKeys {α : Type} (d : PyDict α) (k : String) :
    k ∈ dictKeys d ↔ dictContains d k = true := by
  induction d with
  | nil => simp [dictKeys, dictContains]
  | cons hd tl ih =>
    obtain ⟨k0, v0⟩ := hd
    simp only [dictKeys, List.map_cons, List.mem_cons, dictContains,
      Bool.or_eq_true, beq_iff_eq] at ih ⊢
    rw [ih]
    constructor
    · rintro (rfl | h1)
      · exact Or.inl rfl
      · exact Or.inr h1
    · rintro (rfl | h1)
      · exact Or.inl rfl
      · exact Or.inr h1

lemma dictKeys_insert {α : Type} (d : PyDict α) (k : String) (v : α) :
    dictKeys (dictInsert d k v) =
      if dictContains d k = true then dictKeys d else dictKeys d ++ [k] := by
  induction d with
  | nil => simp [dictInsert, dictContains, dictKeys]
  | cons hd tl ih =>
    obtain ⟨k0, v0⟩ := hd
    by_cases h : k0 = k
    · subst h
      simp [dictInsert, dictContains, dictKeys]
    · simp only [dictInsert, if_neg h, dictContains, dictKeys, List.map_cons]
      by_cases hc : dictContains tl k = true
      · simp only [dictKeys] at ih
        simp [ih, hc, h]
      · simp only [dictKeys] at ih
        simp [ih, hc, h]

lemma dictKeys_nodup_insert {α : Type} (d : PyDict α) (k : String) (v : α)
    (h : (dictKeys d).Nodup) : (dictKeys (dictInsert d k v)).Nodup := by
  rw [dictKeys_insert]
  by_cases hc : dictContains d k = true
  · rw [if_pos hc]; exact h
  · rw [if_neg hc]
    have hk : k ∉ dictKeys d := by
      rw [mem_dictKeys]
      exact fun hx => hc hx
    simp only [List.nodup_append, List.nodup_singleton, List.disjoint_singleton]
    exact ⟨h, trivial, hk⟩

lemma dictContains_ne_nil {α : Type} (d : PyDict α) (k : String)
    (h : dictContains d k = true) : d ≠ [] := by
  intro he
  subst he
  simp [dictContains] at h

lemma dictKeys_length {α : Type} (d : PyDict α) : (dictKeys d).length = d.length :=
  List.length_map d _

/- ===== Lemmas about StringParser.transform's loop ===== -/

lemma spStep_success_contains (cs : List Converter) (i : Interaction) (st : SPState)
    (t k : String) :
    dictContains (spStep cs i st t).success k = true ↔
      (resolveSucceeds cs i t = true ∧ k = t) ∨ dictContains st.success k = true := by
  cases hv : (_run_converters cs i t).value with
  | none =>
    cases he : (_run_converters cs i t).error with
    | none => simp [spStep, resolveSucceeds, valueTruthy, hv, he]
    | some e => simp [spStep, resolveSucceeds, valueTruthy, hv, he]
  | some w =>
    cases hw : w.truthy with
    | false =>
      cases he : (_run_converters cs i t).error with
      | none => simp [spStep, resolveSucceeds, valueTruthy, hv, he, hw]
      | some e => simp [spStep, resolveSucceeds, valueTruthy, hv, he, hw]
    | true =>
      cases he : (_run_converters cs i t).error with
      | none => simp [spStep, resolveSucceeds, valueTruthy, hv, he, hw, dictContains_insert]
      | some e => simp [spStep, resolveSucceeds, valueTruthy, hv, he, hw, dictContains_insert]

lemma spStep_failed_contains (cs : List Converter) (i : Interaction) (st : SPState)
    (t k : String) :
    dictContains (spStep cs i st t).failed k = true ↔
      (resolveSucceeds cs i t = false ∧ k = t) ∨ dictContains st.failed k = true := by
  cases hv : (_run_converters cs i t).value with
  | none =>
    cases he : (_run_converters cs i t).error with
    | none => simp [spStep, resolveSucceeds, valueTruthy, hv, he, dictContains_insert]
    | some e => simp [spStep, resolveSucceeds, valueTruthy, hv, he, dictContains_insert]
  | some w =>
    cases hw : w.truthy with
    | false =>
      cases he : (_run_converters cs i t).error with
      | none => simp [spStep, resolveSucceeds, valueTruthy, hv, he, hw, dictContains_insert]
      | some e => simp [spStep, resolveSucceeds, valueTruthy, hv, he, hw, dictContains_insert]
    | true =>
      cases he : (_run_converters cs i t).error with
      | none => simp [spStep, resolveSucceeds, valueTruthy, hv, he, hw]
      | some e => simp [spStep, resolveSucceeds, valueTruthy, hv, he, hw]

lemma spStep_errors_contains (cs : List Converter) (i : Interaction) (st : SPState)
    (t k : String) :
    dictContains (spStep cs i st t).errors k = true ↔
      (resolveRaised cs i t = true ∧ k = t) ∨ dictContains st.errors k = true := by
  cases hv : (_run_converters cs i t).value with
  | none =>
    cases he : (_run_converters cs i t).error with
    | none => simp [spStep, resolveRaised, hv, he]
    | some e => simp [spStep, resolveRaised, hv, he, dictContains_insert]
  | some w =>
    cases hw : w.truthy with
    | false =>
      cases he : (_run_converters cs i t).error with
      | none => simp [spStep, resolveRaised, hv, he, hw]
      | some e => simp [spStep, resolveRaised, hv, he, hw, dictContains_insert]
    | true =>
      cases he : (_run_converters cs i t).error with
      | none => simp [spStep, resolveRaised, hv, he, hw]
      | some e => simp [spStep, resolveRaised, hv, he, hw, dictContains_insert]

lemma spStep_success_cases (cs : List Converter) (i : Interaction) (st : SPState)
    (t : String) :
    (spStep cs i st t).success = st.success
    ∨ ∃ x, (spStep cs i st t).success = dictInsert st.success t x := by
  cases hv : (_run_converters cs i t).value with
  | none =>
    cases he : (_run_converters cs i t).error with
    | none => exact Or.inl (by simp [spStep, hv, he])
    | some e => exact Or.inl (by simp [spStep, hv, he])
  | some w =>
    cases hw : w.truthy with
    | false =>
      cases he : (_run_converters cs i t).error with
      | none => exact Or.inl (by simp [spStep, hv, he, hw])
      | some e => exact Or.inl (by simp [spStep, hv, he, hw])
    | true =>
      cases he : (_run_converters cs i t).error with
      | none => exact Or.inr ⟨(w, (_run_converters cs i t).converter), by simp [spStep, hv, he, hw]⟩
      | some e => exact Or.inr ⟨(w, (_run_converters cs i t).converter), by simp [spStep, hv, he, hw]⟩

lemma spStep_errors_of_not_raised (cs : List Converter) (i : Interaction) (st : SPState)
    (t : String) (h : resolveRaised cs i t = false) :
    (spStep cs i st t).errors = st.errors := by
  unfold resolveRaised at h
  cases he : (_run_converters cs i t).error with
  | none =>
    cases hv : (_run_converters cs i t).value with
    | none => simp [spStep, hv, he]
    | some w =>
      cases hw : w.truthy with
      | false => simp [spStep, hv, he, hw]
      | true => simp [spStep, hv, he, hw]
  | some e =>
    rw [he] at h
    simp at h

lemma spFold_success_contains (cs : List Converter) (i : Interaction) :
    ∀ (ts : List String) (st : SPState) (k : String),
      dictContains ((ts.foldl (spStep cs i) st).success) k = true ↔
        dictContains st.success k = true ∨ (k ∈ ts ∧ resolveSucceeds cs i k = true) := by
  intro ts
  induction ts with
  | nil => intro st k; simp
  | cons t ts1 ih =>
    intro st k
    rw [List.foldl_cons, ih (spStep cs i st t) k, spStep_success_contains]
    constructor
    · rintro ((⟨hs, rfl⟩ | hb) | ⟨hmem, hsk⟩)
      · exact Or.inr ⟨List.mem_cons_self _ _, hs⟩
      · exact Or.inl hb
      · exact Or.inr ⟨List.mem_cons_of_mem _ hmem, hsk⟩
    · rintro (hb | ⟨hmem, hsk⟩)
      · exact Or.inl (Or.inr hb)
      · rcases List.mem_cons.mp hmem with rfl | hmem1
        · exact Or.inl (Or.inl ⟨hsk, rfl⟩)
        · exact Or.inr ⟨hmem1, hsk⟩

lemma spFold_failed_contains (cs : List Converter) (i : Interaction) :
    ∀ (ts : List String) (st : SPState) (k : String),
      dictContains ((ts.foldl (spStep cs i) st).failed) k = true ↔
        dictContains st.failed k = true ∨ (k ∈ ts ∧ resolveSucceeds cs i k = false) := by
  intro ts
  induction ts with
  | nil => intro st k; simp
  | cons t ts1 ih =>
    intro st k
    rw [List.foldl_cons, ih (spStep cs i st t) k, spStep_failed_contains]
    constructor
    · rintro ((⟨hs, rfl⟩ | hb) | ⟨hmem, hsk⟩)
      · exact Or.inr ⟨List.mem_cons_self _ _, hs⟩
      · exact Or.inl hb
      · exact Or.inr ⟨List.mem_cons_of_mem _ hmem, hsk⟩
    · rintro (hb | ⟨hmem, hsk⟩)
      · exact Or.inl (Or.inr hb)
      · rcases List.mem_cons.mp hmem with rfl | hmem1
        · exact Or.inl (Or.inl ⟨hsk, rfl⟩)
        · exact Or.inr ⟨hmem1, hsk⟩

lemma spFold_errors_contains (cs : List Converter) (i : Interaction) :
    ∀ (ts : List String) (st : SPState) (k : String),
      dictContains ((ts.foldl (spStep cs i) st).errors) k = true ↔
        dictContains st.errors k = true ∨ (k ∈ ts ∧ resolveRaised cs i k = true) := by
  intro ts
  induction ts with
  | nil => intro st k; simp
  | cons t ts1 ih =>
    intro st k
    rw [List.foldl_cons, ih (spStep cs i st t) k, spStep_errors_contains]
    constructor
    · rintro ((⟨hs, rfl⟩ | hb) | ⟨hmem, hsk⟩)
      · exact Or.inr ⟨List.mem_cons_self _ _, hs⟩
      · exact Or.inl hb
      · exact Or.inr ⟨List.mem_cons_of_mem _ hmem, hsk⟩
    · rintro (hb | ⟨hmem, hsk⟩)
      · exact Or.inl (Or.inr hb)
      · rcases List.mem_cons.mp hmem with rfl | hmem1
        · exact Or.inl (Or.inl ⟨hsk, rfl⟩)
        · exact Or.inr ⟨hmem1, hsk⟩

lemma spFold_errors_of_none_raised (cs : List Converter) (i : Interaction) :
    ∀ (ts : List String) (st : SPState),
      (∀ t ∈ ts, resolveRaised cs i t = false) →
      (ts.foldl (spStep cs i) st).errors = st.errors := by
  intro ts
  induction ts with
  | nil => intro st _; rfl
  | cons t ts1 ih =>
    intro st hall
    rw [List.foldl_cons, ih (spStep cs i st t)
      (fun t1 h1 => hall t1 (List.mem_cons_of_mem _ h1))]
    exact spStep_errors_of_not_raised cs i st t (hall t (List.mem_cons_self _ _))

lemma spFold_success_keys_nodup (cs : List Converter) (i : Interaction) :
    ∀ (ts : List String) (st : SPState),
      (dictKeys st.success).Nodup →
      (dictKeys ((ts.foldl (spStep cs i) st).success)).Nodup := by
  intro ts
  induction ts with
  | nil => intro st h; exact h
  | cons t ts1 ih =>
    intro st h
    rw [List.foldl_cons]
    refine ih (spStep cs i st t) ?_
    rcases spStep_success_cases cs i st t with heq | ⟨x, heq⟩
    · rw [heq]; exact h
    · rw [heq]; exact dictKeys_nodup_insert _ _ _ h

/-- StringParser.transform written with its branches exposed (definitional). -/
lemma transform_eq (p : StringParser) (i : Interaction) (argument : String) :
    StringParser.transform p i argument =
      if ((spRun p i argument).success.isEmpty
          || (p.fail_on_error && !(spRun p i argument).failed.isEmpty)) = true then
        SPOutcome.parsingFailed argument (spRun p i argument).errors
      else if p.only_values = true then
        SPOutcome.values (ParseResult.converted
          { argument := argument, success := (spRun p i argument).success,
            failed := (spRun p i argument).failed, errors := (spRun p i argument).errors })
      else
        SPOutcome.result
          { argument := argument, success := (spRun p i argument).success,
            failed := (spRun p i argument).failed, errors := (spRun p i argument).errors } :=
  rfl

lemma spRun_eq (p : StringParser) (i : Interaction) (argument : String) :
    spRun p i argument =
      (pySplit p.split_by argument).foldl (spStep p.converters i)
        { success := [], failed := [], errors := [] } :=
  rfl

/-- Claim C4 (confirmed): whenever StringParser.transform returns a
    ParseResult, every split sub-value is a key of exactly one of the success
    and failed dicts, and is a key of the error dict only if some converter
    raised (its expected error kind) while converting that sub-value. -/
theorem c4_partition (p : StringParser) (i : Interaction) (argument : String)
    (res : ParseResult)
    (h : StringParser.transform p i argument = SPOutcome.result res) :
    ∀ v ∈ pySplit p.split_by argument,
      ((dictContains res.success v = true ∧ dictContains res.failed v = false)
        ∨ (dictContains res.success v = false ∧ dictContains res.failed v = true))
      ∧ (dictContains res.errors v = true →
          ∃ c ∈ p.converters, ∃ e, c.run i v = ConvOutcome.caught e) := by
  rw [transform_eq] at h
  by_cases hb : ((spRun p i argument).success.isEmpty
      || (p.fail_on_error && !(spRun p i argument).failed.isEmpty)) = true
  · rw [if_pos hb] at h
    simp at h
  · rw [if_neg hb] at h
    by_cases ho : p.only_values = true
    · rw [if_pos ho] at h
      simp at h
    · rw [if_neg ho, SPOutcome.result.injEq] at h
      subst h
      intro v hv
      have hS : dictContains ((spRun p i argument).success) v = true ↔
          (v ∈ pySplit p.split_by argument ∧ resolveSucceeds p.converters i v = true) := by
        rw [spRun_eq, spFold_success_contains]
        simp [dictContains]
      have hF : dictContains ((spRun p i argument).failed) v = true ↔
          (v ∈ pySplit p.split_by argument ∧ resolveSucceeds p.converters i v = false) := by
        rw [spRun_eq, spFold_failed_contains]
        simp [dictContains]
      have hE : dictContains ((spRun p i argument).errors) v = true ↔
          (v ∈ pySplit p.split_by argument ∧ resolveRaised p.converters i v = true) := by
        rw [spRun_eq, spFold_errors_contains]
        simp [dictContains]
      refine ⟨?_, ?_⟩
      · cases hs : resolveSucceeds p.converters i v with
        | true =>
          refine Or.inl ⟨hS.mpr ⟨hv, hs⟩, ?_⟩
          cases hf : dictContains ((spRun p i argument).failed) v with
          | false => rfl
          | true =>
            rcases hF.mp hf with ⟨_, hsf⟩
            exact Bool.noConfusion (hs.symm.trans hsf)
        | false =>
          refine Or.inr ⟨?_, hF.mpr ⟨hv, hs⟩⟩
          cases hf : dictContains ((spRun p i argument).success) v with
          | false => rfl
          | true =>
            rcases hS.mp hf with ⟨_, hsf⟩
            exact Bool.noConfusion (hs.symm.trans hsf)
      · intro hev
        rcases hE.mp hev with ⟨_, hraised⟩
        unfold resolveRaised at hraised
        rcases Option.isSome_iff_exists.mp hraised with ⟨e, he⟩
        rcases runConvertersGo_error_source i v p.converters
            { value := none, converter := none, error := none } e he with h0 | ⟨c, hc, hce⟩
        · exact Option.noConfusion h0
        · exact ⟨c, hc, e, hce⟩

/-- Witness for c4_partition: StringParser(converters=[IntegerConverter]) on
    "1 x" returns the concrete ParseResult c4res, and the partition property
    instantiated at the sub-value "x". -/
theorem c4_witness :
    StringParser.transform c4parser i0 "1 x" = SPOutcome.result c4res
    ∧ (((dictContains c4res.success "x" = true ∧ dictContains c4res.failed "x" = false)
        ∨ (dictContains c4res.success "x" = false ∧ dictContains c4res.failed "x" = true))
      ∧ (dictContains c4res.errors "x" = true →
          ∃ c ∈ c4parser.converters, ∃ e, c.run i0 "x" = ConvOutcome.caught e)) :=
  ⟨rfl, c4_partition c4parser i0 "1 x" c4res rfl "x" (by decide)⟩

/-- Claim C7 (confirmed): StringParser.transform raises ParsingFailed exactly
    when the accumulated success dict is empty or fail_on_error is set and the
    failed dict is non-empty; otherwise it returns a result (a ParseResult, or
    the converted values when only_values). -/
theorem c7_parsing_failed_iff (p : StringParser) (i : Interaction) (argument : String) :
    ((∃ errs, StringParser.transform p i argument = SPOutcome.parsingFailed argument errs)
      ↔ ((spRun p i argument).success = []
          ∨ (p.fail_on_error = true ∧ (spRun p i argument).failed ≠ [])))
    ∧ ((¬ ((spRun p i argument).success = []
          ∨ (p.fail_on_error = true ∧ (spRun p i argument).failed ≠ []))) →
        ((∃ res, StringParser.transform p i argument = SPOutcome.result res)
          ∨ (∃ vs, StringParser.transform p i argument = SPOutcome.values vs))) := by
  have hcond : ((spRun p i argument).success.isEmpty
      || (p.fail_on_error && !(spRun p i argument).failed.isEmpty)) = true ↔
      ((spRun p i argument).success = []
        ∨ (p.fail_on_error = true ∧ (spRun p i argument).failed ≠ [])) := by
    simp [List.isEmpty_iff]
  by_cases hb : ((spRun p i argument).success.isEmpty
      || (p.fail_on_error && !(spRun p i argument).failed.isEmpty)) = true
  · have htr : StringParser.transform p i argument =
        SPOutcome.parsingFailed argument (spRun p i argument).errors := by
      rw [transform_eq, if_pos hb]
    exact ⟨⟨fun _ => hcond.mp hb, fun _ => ⟨_, htr⟩⟩,
      fun hn => absurd (hcond.mp hb) hn⟩
  · have hnc : ¬ ((spRun p i argument).success = []
        ∨ (p.fail_on_error = true ∧ (spRun p i argument).failed ≠ [])) :=
      fun hp => hb (hcond.mpr hp)
    refine ⟨⟨fun he => ?_, fun hp => absurd hp hnc⟩, fun _ => ?_⟩
    · obtain ⟨errs, he⟩ := he
      rw [transform_eq, if_neg hb] at he
      by_cases ho : p.only_values = true
      · rw [if_pos ho] at he
        simp at he
      · rw [if_neg ho] at he
        simp at he
    · by_cases ho : p.only_values = true
      · right
        exact ⟨_, by rw [transform_eq, if_neg hb, if_pos ho]⟩
      · left
        exact ⟨_, by rw [transform_eq, if_neg hb, if_neg ho]⟩

/-- Witness for c7_parsing_failed_iff: with converters=[IntegerConverter] and
    argument "x" the success dict stays empty, so transform raises
    ParsingFailed. -/
theorem c7_witness :
    ∃ errs, StringParser.transform c7parser i0 "x" = SPOutcome.parsingFailed "x" errs :=
  (c7_parsing_failed_iff c7parser i0 "x").1.mpr (Or.inl rfl)

/- ===== Lemmas about utils._get_converters ===== -/

lemma get_converters_append :
    ∀ (xs ys : List Descriptor),
      _get_converters (xs ++ ys) = _get_converters xs ++ _get_converters ys := by
  intro xs
  induction xs with
  | nil => intro ys; simp [_get_converters]
  | cons d rest ih =>
    intro ys
    cases d with
    | atom a => simp [_get_converters, ih, List.append_assoc]
    | union u0 us => simp [_get_converters, ih, List.append_assoc]

/-- Claim C5 (confirmed): VariadicArgs(min=2, max=3) with the default str
    converter and space delimiter: "a b" (2 tokens) returns the converted
    sequence; "a" (1 token) raises InvalidVariadicArguments with "Too few";
    "a b c d" (4 tokens) raises InvalidVariadicArguments with "Too many". -/
theorem c5_bounds :
    VariadicArgs.transform va5 i0 "a b" = VAOutcome.values [Value.vstr "a", Value.vstr "b"]
    ∧ VariadicArgs.transform va5 i0 "a"
        = VAOutcome.invalidVariadicArguments "a" ["a"] "Too few"
    ∧ VariadicArgs.transform va5 i0 "a b c d"
        = VAOutcome.invalidVariadicArguments "a b c d" ["a", "b", "c", "d"] "Too many" :=
  ⟨rfl, rfl, rfl⟩

/-- Claim C6 (confirmed): VariadicArgs(converters=[int]) on "1 2 x" raises
    VariadicArgsFailed whose errors dict has exactly the one key "x" (the
    token whose int() conversion raised). -/
theorem c6_one_failed_token :
    VariadicArgs.transform va6 i0 "1 2 x"
      = VAOutcome.variadicArgsFailed "1 2 x" ["1", "2", "x"] [("x", Exc.notAnInteger "x")]
    ∧ dictKeys [("x", Exc.notAnInteger "x")] = ["x"] :=
  ⟨rfl, rfl⟩

/-- Claim C8 (confirmed): a union whose members are exactly the member and
    role entity classes — in either order — is normalized to the three
    converters (MemberConverter, RoleConverter, UserConverter), in that fixed
    order, regardless of where the union sits in the descriptor list. -/
theorem c8_member_role_union (ds1 ds2 : List Descriptor) (u0 : AtomDescriptor)
    (us : List AtomDescriptor)
    (h : (u0 = AtomDescriptor.entity EntityTy.member
          ∧ us = [AtomDescriptor.entity EntityTy.role])
      ∨ (u0 = AtomDescriptor.entity EntityTy.role
          ∧ us = [AtomDescriptor.entity EntityTy.member])) :
    _get_converters (ds1 ++ Descriptor.union u0 us :: ds2)
      = _get_converters ds1
        ++ ([MemberConverter, RoleConverter, UserConverter] ++ _get_converters ds2) := by
  rcases h with ⟨rfl, rfl⟩ | ⟨rfl, rfl⟩ <;> rw [get_converters_append] <;> rfl

/-- Witness for c8_member_role_union: both member orders of the union
    normalize to the same three converters. -/
theorem c8_witness :
    _get_converters
        [Descriptor.union (AtomDescriptor.entity EntityTy.member)
          [AtomDescriptor.entity EntityTy.role]]
      = [MemberConverter, RoleConverter, UserConverter]
    ∧ _get_converters
        [Descriptor.union (AtomDescriptor.entity EntityTy.role)
          [AtomDescriptor.entity EntityTy.member]]
      = [MemberConverter, RoleConverter, UserConverter] :=
  ⟨c8_member_role_union [] [] _ _ (Or.inl ⟨rfl, rfl⟩),
   c8_member_role_union [] [] _ _ (Or.inr ⟨rfl, rfl⟩)⟩

/-- Claim C10 (confirmed): the mentionable special case fires for ANY union
    all of whose members are the member, user or role entity classes — in
    particular for a member-or-user union with no role member — and always
    contributes the same three converters, including RoleConverter. -/
theorem c10_entity_union_adds_role (ds1 ds2 : List Descriptor) (u0 : AtomDescriptor)
    (us : List AtomDescriptor)
    (h : ∀ a ∈ u0 :: us, a = AtomDescriptor.entity EntityTy.member
        ∨ a = AtomDescriptor.entity EntityTy.user
        ∨ a = AtomDescriptor.entity EntityTy.role) :
    _get_converters (ds1 ++ Descriptor.union u0 us :: ds2)
      = _get_converters ds1
        ++ ([MemberConverter, RoleConverter, UserConverter] ++ _get_converters ds2) := by
  have hall : (u0 :: us).all isMentionableItem = true := by
    rw [List.all_eq_true]
    intro a ha
    rcases h a ha with rfl | rfl | rfl <;> rfl
  rw [get_converters_append]
  have hcell : _get_converters (Descriptor.union u0 us :: ds2)
      = [MemberConverter, RoleConverter, UserConverter] ++ _get_converters ds2 := by
    simp only [_get_converters]
    rw [if_pos hall]
  rw [hcell]

/-- Witness for c10_entity_union_adds_role: a union of exactly member and
    user (no role) still normalizes to member, role and user converters. -/
theorem c10_witness :
    _get_converters
        [Descriptor.union (AtomDescriptor.entity EntityTy.member)
          [AtomDescriptor.entity EntityTy.user]]
      = [MemberConverter, RoleConverter, UserConverter] :=
  c10_entity_union_adds_role [] [] _ _ (by
    intro a ha
    rcases List.mem_cons.mp ha with rfl | hb
    · exact Or.inl rfl
    · rcases List.mem_singleton.mp hb with rfl
      exact Or.inr (Or.inl rfl))

/- ===== Lemmas about VariadicArgs.transform ===== -/

lemma vaParser_split_by (va : VariadicArgs) : (vaParser va).split_by = va.split_by := rfl

lemma vaParser_converters (va : VariadicArgs) : (vaParser va).converters = va.converters := rfl

lemma vaParser_only_values (va : VariadicArgs) : (vaParser va).only_values = false := rfl

lemma vaParser_fail_on_error (va : VariadicArgs) : (vaParser va).fail_on_error = false := rfl

/-- VariadicArgs.transform written with its branches exposed (definitional). -/
lemma va_transform_eq (va : VariadicArgs) (i : Interaction) (argument : String) :
    VariadicArgs.transform va i argument =
      match StringParser.transform (vaParser va) i argument with
      | SPOutcome.parsingFailed _ errs =>
        VAOutcome.variadicArgsFailed argument (pySplit va.split_by argument) errs
      | SPOutcome.values vs => VAOutcome.values vs
      | SPOutcome.result res =>
        if ((pySplit va.split_by argument).isEmpty
            || minViolated va (pySplit va.split_by argument)
            || maxViolated va (pySplit va.split_by argument)) = true then
          VAOutcome.invalidVariadicArguments argument (pySplit va.split_by argument)
            (invalidVariadicWhat va (pySplit va.split_by argument))
        else if (res.success.isEmpty || !res.failed.isEmpty
            || !(res.success.length == (pySplit va.split_by argument).length)) = true then
          VAOutcome.variadicArgsFailed argument (pySplit va.split_by argument) res.errors
        else VAOutcome.values res.converted :=
  rfl

/-- Claim C9 (confirmed): when the split token list contains a duplicate,
    every token converts to a truthy value, and the configured bounds are
    satisfied, VariadicArgs.transform still raises VariadicArgsFailed because
    the success dict (keyed by token text) is smaller than the split list; and
    when no converter raised at all (the duplicate-only case) the raised
    error's errors dict is empty. -/
theorem c9_duplicate_tokens (va : VariadicArgs) (i : Interaction) (argument : String)
    (hdup : ¬ (pySplit va.split_by argument).Nodup)
    (hsucc : ∀ v ∈ pySplit va.split_by argument, resolveSucceeds va.converters i v = true)
    (hmin : minViolated va (pySplit va.split_by argument) = false)
    (hmax : maxViolated va (pySplit va.split_by argument) = false) :
    ∃ errs, VariadicArgs.transform va i argument
        = VAOutcome.variadicArgsFailed argument (pySplit va.split_by argument) errs
      ∧ ((∀ v ∈ pySplit va.split_by argument, resolveRaised va.converters i v = false) →
          errs = []) := by
  have hne : pySplit va.split_by argument ≠ [] := by
    intro h0
    rw [h0] at hdup
    exact hdup List.nodup_nil
  obtain ⟨t0, ts1, hts⟩ := List.exists_cons_of_ne_nil hne
  have ht0 : t0 ∈ pySplit va.split_by argument := by
    rw [hts]
    exact List.mem_cons_self _ _
  have hS : ∀ k, dictContains ((spRun (vaParser va) i argument).success) k = true ↔
      (k ∈ pySplit va.split_by argument ∧ resolveSucceeds va.converters i k = true) := by
    intro k
    rw [spRun_eq, vaParser_split_by, vaParser_converters, spFold_success_contains]
    simp [dictContains]
  have hsuc_ne : (spRun (vaParser va) i argument).success ≠ [] :=
    dictContains_ne_nil _ t0 ((hS t0).mpr ⟨ht0, hsucc t0 ht0⟩)
  have hsuc_isEmpty : (spRun (vaParser va) i argument).success.isEmpty = false := by
    rcases hx : (spRun (vaParser va) i argument).success with _ | ⟨a, l⟩
    · exact absurd hx hsuc_ne
    · rfl
  have hres : StringParser.transform (vaParser va) i argument
      = SPOutcome.result
          { argument := argument, success := (spRun (vaParser va) i argument).success,
            failed := (spRun (vaParser va) i argument).failed,
            errors := (spRun (vaParser va) i argument).errors } := by
    rw [transform_eq, if_neg (by simp [hsuc_isEmpty, vaParser_fail_on_error]),
      if_neg (by simp [vaParser_only_values])]
  have hts_isEmpty : (pySplit va.split_by argument).isEmpty = false := by
    rw [hts]
    rfl
  have htrans : VariadicArgs.transform va i argument =
      (if ((pySplit va.split_by argument).isEmpty
          || minViolated va (pySplit va.split_by argument)
          || maxViolated va (pySplit va.split_by argument)) = true then
        VAOutcome.invalidVariadicArguments argument (pySplit va.split_by argument)
          (invalidVariadicWhat va (pySplit va.split_by argument))
      else if ((spRun (vaParser va) i argument).success.isEmpty
          || !(spRun (vaParser va) i argument).failed.isEmpty
          || !((spRun (vaParser va) i argument).success.length
              == (pySplit va.split_by argument).length)) = true then
        VAOutcome.variadicArgsFailed argument (pySplit va.split_by argument)
          (spRun (vaParser va) i argument).errors
      else VAOutcome.values (ParseResult.converted
          { argument := argument, success := (spRun (vaParser va) i argument).success,
            failed := (spRun (vaParser va) i argument).failed,
            errors := (spRun (vaParser va) i argument).errors })) := by
    rw [va_transform_eq, hres]
  have hkeysN : (dictKeys (spRun (vaParser va) i argument).success).Nodup := by
    rw [spRun_eq]
    exact spFold_success_keys_nodup _ i _ _ (by simp [dictKeys])
  have hkeys_mem : ∀ k, k ∈ dictKeys (spRun (vaParser va) i argument).success ↔
      k ∈ pySplit va.split_by argument := by
    intro k
    rw [mem_dictKeys, hS k]
    exact ⟨fun h1 => h1.1, fun hm => ⟨hm, hsucc k hm⟩⟩
  have hfin : (dictKeys (spRun (vaParser va) i argument).success).toFinset
      = (pySplit va.split_by argument).toFinset := by
    ext k
    simp only [List.mem_toFinset]
    exact hkeys_mem k
  have hlen1 : (dictKeys (spRun (vaParser va) i argument).success).length
      = (pySplit va.split_by argument).dedup.length := by
    rw [← List.toFinset_card_of_nodup hkeysN, hfin, List.card_toFinset]
  have hdlt : (pySplit va.split_by argument).dedup.length
      < (pySplit va.split_by argument).length := by
    have hsub := List.dedup_sublist (pySplit va.split_by argument)
    rcases Nat.lt_or_ge (pySplit va.split_by argument).dedup.length
        (pySplit va.split_by argument).length with hlt | hge
    · exact hlt
    · exact absurd (List.dedup_eq_self.mp (hsub.eq_of_length
        (Nat.le_antisymm hsub.length_le hge))) hdup
  have hlen_ne : (spRun (vaParser va) i argument).success.length
      ≠ (pySplit va.split_by argument).length := by
    rw [← dictKeys_length, hlen1]
    exact Nat.ne_of_lt hdlt
  refine ⟨(spRun (vaParser va) i argument).errors, ?_, ?_⟩
  · rw [htrans, if_neg (by simp [hts_isEmpty, hmin, hmax]),
      if_pos (by simp [hlen_ne])]
  · intro hnr
    rw [spRun_eq, vaParser_split_by, vaParser_converters]
    exact spFold_errors_of_none_raised va.converters i _ _ hnr

/-- Witness for c9_duplicate_tokens: VariadicArgs() with the default str
    converter on "a a" — both tokens convert, no bounds are set, yet the call
    raises VariadicArgsFailed with an empty errors dict. -/
theorem c9_witness :
    ¬ (pySplit " " "a a").Nodup
    ∧ ∃ errs, VariadicArgs.transform va9 i0 "a a"
          = VAOutcome.variadicArgsFailed "a a" ["a", "a"] errs
        ∧ ((∀ v ∈ pySplit " " "a a", resolveRaised va9.converters i0 v = false) →
            errs = []) :=
  ⟨by decide, c9_duplicate_tokens va9 i0 "a a" (by decide) (by decide) rfl rfl⟩
